import Mathlib

/-!
Shallow embedding of the docker-keeper specification-evaluation engine
(`keeper.py` and `bash_formatter.py`): the bash-like pattern template
engine, the condition evaluator, the cartesian build-matrix expander,
the build-plan compiler and the propagation-strategy resolver, together
with theorems checking the natural-language specification against it.

Modelling conventions:
* Python dicts with a known field set become records (optional fields
  become `Option`); dicts used as finite maps become association lists
  in insertion order.
* Python exceptions become `Except Err`; the distinct Python exception
  classes (`keeper.Error` raised by `error()`, `KeyError`,
  `AttributeError`, `TypeError`, `ValueError`, `SystemExit` via
  `exit(1)`, `AssertionError`) are separate constructors of `Err`.
* The ambient clock read by `get_build_date()` (and the network read of
  `get_commit`) are passed as explicit environment parameters.
-/

/-- Python exception classes reachable in the embedded code. -/
inductive Err where
  | keeperError (msg : String)
  | keyError (msg : String)
  | attributeError (msg : String)
  | typeError (msg : String)
  | valueError (msg : String)
  | indexError (msg : String)
  | exitError (msg : String)
  | assertionError (msg : String)
  deriving DecidableEq, Repr

instance {ε α : Type} [DecidableEq ε] [DecidableEq α] : DecidableEq (Except ε α) := fun a b =>
  match a, b with
  | .ok x, .ok y =>
      if h : x = y then .isTrue (by rw [h])
      else .isFalse (by intro hc; injection hc; contradiction)
  | .error x, .error y =>
      if h : x = y then .isTrue (by rw [h])
      else .isFalse (by intro hc; injection hc; contradiction)
  | .ok _, .error _ => .isFalse (by intro hc; cases hc)
  | .error _, .ok _ => .isFalse (by intro hc; cases hc)

/-- Python values reachable by the template engine's field traversal:
strings, dicts (association lists, insertion order), lists, and `None`
(the default for the `vars`/`defaults` roots of `eval_bashlike`). -/
inductive Value where
  | vstr (s : String)
  | vdict (d : List (String × Value))
  | vlist (l : List Value)
  | vnone

/-- Association-list lookup (first binding wins), i.e. Python `d[k]`
for dicts, which hold each key at most once. -/
def lookupStr (d : List (String × α)) (k : String) : Option α :=
  match d with
  | [] => none
  | (k', v) :: rest => if k' = k then some v else lookupStr rest k

/-! ### Glob translation and anchored matching (`bash_formatter.translate`)

`translate` maps `*` to `.*` (greedy) or `.*?` (lazy), `?` to `.`, and
escapes every other character; the resulting regexps contain only
literals, `.`, and a greedy/lazy star, so we embed them as a token list
plus a greediness flag, and give the backtracking matcher Python's
leftmost-preference semantics directly. -/

inductive GTok where
  | lit (c : Char)
  | anyc
  | star
  deriving DecidableEq, Repr

/-- `translate(glob, greedy)` from `bash_formatter.py`, as a token list
(the greediness flag is carried separately to the matcher). -/
def translateGlob (glob : List Char) : List GTok :=
  glob.map fun c => if c = '*' then .star else if c = '?' then .anyc else .lit c

/-- End offset of the match of an anchored pattern at the start of `s`,
with Python's backtracking preference: a greedy star first tries to
consume more, a lazy star first tries to consume less. `none` means the
anchored pattern does not match at position 0. The fuel only bounds the
recursion so that the definition reduces by iota: every recursive call
decreases `ts.length + s.length`, so the initial fuel chosen in
`matchEnd` makes the zero-fuel branch unreachable. -/
def matchEndAux (greedy : Bool) : Nat → List GTok → List Char → Option Nat
  | 0, _, _ => none
  | _ + 1, [], _ => some 0
  | _ + 1, .lit _ :: _, [] => none
  | fuel + 1, .lit c :: ts, c' :: s =>
      if c = c' then (matchEndAux greedy fuel ts s).map (· + 1) else none
  | _ + 1, .anyc :: _, [] => none
  | fuel + 1, .anyc :: ts, _ :: s => (matchEndAux greedy fuel ts s).map (· + 1)
  | fuel + 1, .star :: ts, [] => matchEndAux greedy fuel ts []
  | fuel + 1, .star :: ts, c :: s =>
      if greedy then
        match matchEndAux greedy fuel (.star :: ts) s with
        | some n => some (n + 1)
        | none => matchEndAux greedy fuel ts (c :: s)
      else
        match matchEndAux greedy fuel ts (c :: s) with
        | some n => some n
        | none => (matchEndAux greedy fuel (.star :: ts) s).map (· + 1)

def matchEnd (greedy : Bool) (ts : List GTok) (s : List Char) : Option Nat :=
  matchEndAux greedy (ts.length + s.length + 1) ts s

/-- `re.sub('^' + translate(pat, greedy), '', s, count=1)`: an anchored
pattern can only match at position 0, so at most the matched prefix is
removed. -/
def subAnchoredOnce (greedy : Bool) (pat s : List Char) : List Char :=
  match matchEnd greedy (translateGlob pat) s with
  | some e => s.drop e
  | none => s

/-- `re.sub(translate(glob, True), dest, s, count=0)`: replace every
non-overlapping leftmost match, with Python ≥3.7 empty-match handling
(an empty match inserts the replacement and the scan advances one
character). `fuel` only forces termination; `s.length + 1` is enough
because every step either ends the scan or consumes a character. -/
def subAllAux (greedy : Bool) (toks : List GTok) (dest : List Char) :
    Nat → List Char → List Char
  | 0, s => s
  | fuel + 1, s =>
      match matchEnd greedy toks s with
      | some 0 =>
          match s with
          | [] => dest
          | c :: rest => dest ++ c :: subAllAux greedy toks dest fuel rest
      | some (e + 1) => dest ++ subAllAux greedy toks dest fuel (s.drop (e + 1))
      | none =>
          match s with
          | [] => []
          | c :: rest => c :: subAllAux greedy toks dest fuel rest

def subAll (greedy : Bool) (glob dest s : List Char) : List Char :=
  subAllAux greedy (translateGlob glob) dest (s.length + 1) s

/-- Python string slice `s[a:b]` for non-negative bounds: clamped, and
empty when `b ≤ a`. -/
def pythonSlice (s : List Char) (a b : Nat) : List Char :=
  (s.take b).drop a

/-- `reverse(text)` from `bash_formatter.py` (`text[::-1]`). -/
def strReverse (s : List Char) : List Char := s.reverse

/-- The `%pat` / `%%pat` branch of `BashLike.get_field`:
`reverse(re.sub(translate_prefix(reverse(suffix), greedy), '', reverse(obj), count=1))`. -/
def stripSuffixGlob (greedy : Bool) (suffix s : List Char) : List Char :=
  strReverse (subAnchoredOnce greedy (strReverse suffix) (strReverse s))

/-! ### The pattern template engine (`BashLike`, a `string.Formatter`)

Templates are kept as raw strings; we embed CPython's replacement-field
parser (`Formatter.parse` / `_string.formatter_field_name_split`) for
the fragment the repository uses: `{name}`, `{name.attr}`, `{name[key]}`
chained arbitrarily, `{{`/`}}` escapes, no conversions and no format
specs (never used by keeper's templates; they yield an error here). -/

structure FieldAccess where
  isAttr : Bool
  key : String
  deriving DecidableEq, Repr

inductive TmplPart where
  | lit (s : String)
  | field (first : String) (accesses : List FieldAccess)
  deriving DecidableEq, Repr

/-- The `.attr` / `[key]` chain of `formatter_field_name_split`. The
fuel only bounds the recursion (every step consumes at least one
character), keeping the definition iota-reducible. -/
def parseAccessesAux : Nat → List Char → Except Err (List FieldAccess)
  | 0, _ => .error (.valueError "parse fuel exhausted (unreachable)")
  | _ + 1, [] => .ok []
  | fuel + 1, '.' :: rest =>
      let name := rest.takeWhile (fun c => ¬ (c = '.' ∨ c = '['))
      let rest' := rest.dropWhile (fun c => ¬ (c = '.' ∨ c = '['))
      if name = [] then .error (.valueError "Empty attribute in format string")
      else do
        let accs ← parseAccessesAux fuel rest'
        .ok (⟨true, String.mk name⟩ :: accs)
  | fuel + 1, '[' :: rest =>
      let key := rest.takeWhile (· ≠ ']')
      match rest.dropWhile (· ≠ ']') with
      | ']' :: rest' =>
          if key = [] then .error (.valueError "Empty attribute in format string")
          else do
            let accs ← parseAccessesAux fuel rest'
            .ok (⟨false, String.mk key⟩ :: accs)
      | _ => .error (.valueError "Missing ']' in format string")
  | _ + 1, _ =>
      .error (.valueError "Only '.' or '[' may follow ']' in format field specifier")

def parseAccesses (s : List Char) : Except Err (List FieldAccess) :=
  parseAccessesAux (s.length + 1) s

/-- `formatter_field_name_split`: leading name, then the access chain. -/
def splitFieldName (s : List Char) : Except Err (String × List FieldAccess) := do
  let first := s.takeWhile (fun c => ¬ (c = '.' ∨ c = '['))
  let rest := s.dropWhile (fun c => ¬ (c = '.' ∨ c = '['))
  let accs ← parseAccesses rest
  .ok (String.mk first, accs)

/-- Consume the chars of one replacement field (after `{`), up to the
closing `}`; a `[` swallows everything up to the next `]` (CPython's
`parse_field`). Conversions (`!`) and format specs (`:`) at top level
are not used by the repository's templates and are not modelled.
Returns the field chars and the remainder after the `}`. The fuel only
bounds the recursion (every step consumes at least one character). -/
def takeFieldAux : Nat → List Char → Except Err (List Char × List Char)
  | 0, _ => .error (.valueError "parse fuel exhausted (unreachable)")
  | _ + 1, [] => .error (.valueError "Single quoted \x7b encountered in format string")
  | _ + 1, '{' :: _ => .error (.valueError "unexpected \x7b in field name")
  | _ + 1, '}' :: rest => .ok ([], rest)
  | _ + 1, ':' :: _ => .error (.valueError "format specs are not modelled")
  | _ + 1, '!' :: _ => .error (.valueError "conversions are not modelled")
  | fuel + 1, '[' :: rest =>
      let key := rest.takeWhile (· ≠ ']')
      match rest.dropWhile (· ≠ ']') with
      | ']' :: rest' => do
          let (f, rem) ← takeFieldAux fuel rest'
          .ok ('[' :: key ++ ']' :: f, rem)
      | _ => .error (.valueError "expected \x7d before end of string")
  | fuel + 1, c :: rest => do
      let (f, rem) ← takeFieldAux fuel rest
      .ok (c :: f, rem)

def takeField (s : List Char) : Except Err (List Char × List Char) :=
  takeFieldAux (s.length + 1) s

/-- `Formatter.parse`: alternating literal chunks and replacement
fields, with `{{` / `}}` escapes. The fuel only forces termination:
every loop iteration consumes at least one character, so
`s.length + 1` is always enough and the fuel-exhaustion branch is
unreachable. -/
def parsePartsAux : Nat → List Char → Except Err (List TmplPart)
  | 0, _ => .error (.valueError "parse fuel exhausted (unreachable)")
  | _ + 1, [] => .ok []
  | fuel + 1, '{' :: '{' :: rest => do
      let ps ← parsePartsAux fuel rest
      .ok (.lit "\x7b" :: ps)
  | fuel + 1, '}' :: '}' :: rest => do
      let ps ← parsePartsAux fuel rest
      .ok (.lit "\x7d" :: ps)
  | fuel + 1, '{' :: rest => do
      let (f, rem) ← takeField rest
      let (first, accs) ← splitFieldName f
      let ps ← parsePartsAux fuel rem
      .ok (.field first accs :: ps)
  | _ + 1, '}' :: _ => .error (.valueError "Single quoted \x7d encountered in format string")
  | fuel + 1, c :: rest => do
      let run := (c :: rest).takeWhile (fun x => ¬ (x = '{' ∨ x = '}'))
      let rem := (c :: rest).dropWhile (fun x => ¬ (x = '{' ∨ x = '}'))
      let ps ← parsePartsAux fuel rem
      .ok (.lit (String.mk run) :: ps)

def parseParts (s : List Char) : Except Err (List TmplPart) :=
  parsePartsAux (s.length + 1) s

/-- `int(...)` on a nonempty digit string. -/
def digitsToNat (ds : List Char) : Nat :=
  ds.foldl (fun n c => n * 10 + (c.toNat - '0'.toNat)) 0

/-- `^([0-9]+):([0-9]+)$` (the `mslice` test of `get_field`): exactly
two nonempty all-digit groups around one `:`. -/
def sliceBounds (k : List Char) : Option (Nat × Nat) :=
  let a := k.takeWhile Char.isDigit
  match k.dropWhile Char.isDigit with
  | ':' :: b =>
      if a ≠ [] ∧ b ≠ [] ∧ b.all Char.isDigit then some (digitsToNat a, digitsToNat b)
      else none
  | _ => none

/-- `^//([^/]+)/(.*)$` (the `msed` test of `get_field`). -/
def msedParse (k : List Char) : Option (List Char × List Char) :=
  match k with
  | '/' :: '/' :: rest =>
      let glob := rest.takeWhile (· ≠ '/')
      match rest.dropWhile (· ≠ '/') with
      | '/' :: dest => if glob = [] then none else some (glob, dest)
      | _ => none
  | _ => none

/-- One step of the `for is_attr, i in rest` loop of
`BashLike.get_field`. Attribute access on the embedded values: a name
starting with `_` is hidden (yields `''`); any other `getattr` on the
modelled values fails. Bracketed access tries, in source order, the
slice, greedy-suffix, suffix and substitution patterns, then falls back
to a plain index lookup (where CPython has already turned an all-digit
key into an `int`, on which `get_field`'s first `re.match` raises
`TypeError`). -/
def getFieldStep (obj : Value) (acc : FieldAccess) : Except Err Value :=
  if acc.isAttr then
    -- hide private fields
    if acc.key.data.take 1 = ['_'] then .ok (.vstr "")
    else .error (.attributeError acc.key)
  else
    let k := acc.key.data
    if k ≠ [] ∧ k.all Char.isDigit then
      .error (.typeError "expected string or bytes-like object")
    else
      match sliceBounds k with
      | some (a, b) =>
          match obj with
          | .vstr s => .ok (.vstr (String.mk (pythonSlice s.data a b)))
          | _ => .error (.typeError "unsliceable object")
      | none =>
      if k.take 2 = ['%', '%'] ∧ k.drop 2 ≠ [] then
        match obj with
        | .vstr s => .ok (.vstr (String.mk (stripSuffixGlob true (k.drop 2) s.data)))
        | _ => .error (.typeError "expected string or bytes-like object")
      else if k.take 1 = ['%'] ∧ k.drop 1 ≠ [] then
        match obj with
        | .vstr s => .ok (.vstr (String.mk (stripSuffixGlob false (k.drop 1) s.data)))
        | _ => .error (.typeError "expected string or bytes-like object")
      else
        match msedParse k with
        | some (glob, dest) =>
            match obj with
            | .vstr s => .ok (.vstr (String.mk (subAll true glob dest s.data)))
            | _ => .error (.typeError "expected string or bytes-like object")
        | none =>
            match obj with
            | .vdict d =>
                match lookupStr d acc.key with
                | some v => .ok v
                | none => .error (.keyError acc.key)
            | .vstr _ => .error (.typeError "string indices must be integers")
            | .vlist _ => .error (.typeError "list indices must be integers")
            | .vnone => .error (.typeError "NoneType object is not subscriptable")

/-- `Formatter.get_value` for keyword arguments: `kwargs[first]`. -/
def getValue (roots : List (String × Value)) (first : String) : Except Err Value :=
  match lookupStr roots first with
  | some v => .ok v
  | none => .error (.keyError first)

/-- `BashLike.get_field`. -/
def get_field (roots : List (String × Value)) (first : String)
    (accesses : List FieldAccess) : Except Err Value := do
  let obj ← getValue roots first
  accesses.foldlM getFieldStep obj

/-- `format(obj, '')` on a field result: modelled for the values the
repository's templates produce (`str` renders itself, `None` renders
`'None'`); dict/list rendering is unused and unmodelled. -/
def renderValue : Value → Except Err String
  | .vstr s => .ok s
  | .vnone => .ok "None"
  | _ => .error (.valueError "str() of non-string values is not modelled")

/-- `BashLike().format(template, **roots)` (`Formatter.vformat`). -/
def formatTmpl (template : String) (roots : List (String × Value)) :
    Except Err String := do
  let parts ← parseParts template.data
  parts.foldlM (fun res p =>
    match p with
    | .lit s => .ok (res ++ s)
    | .field first accs => do
        let v ← get_field roots first accs
        let s ← renderValue v
        .ok (res ++ s)) ""

/-- `eval_bashlike(template, matrix, gvars, defaults)` from `keeper.py`
(the `vars`/`defaults` roots default to `None`). -/
def eval_bashlike (template : String) (matrix : Value)
    (gvars : Value := .vnone) (defaults : Value := .vnone) : Except Err String :=
  formatTmpl template [("matrix", matrix), ("vars", gvars), ("defaults", defaults)]

/-- `eval_bashlike2(expr, matrix, tags, keywords)` from `keeper.py`. -/
def eval_bashlike2 (expr : String) (matrix tags keywords : Value) :
    Except Err String :=
  formatTmpl expr [("matrix", matrix), ("tags", tags), ("keywords", keywords)]

/-! ### List and comma-list utilities from `keeper.py` -/

/-- `remove_spaces(text)`: `text.replace(' ', '')`. -/
def remove_spaces (s : List Char) : List Char := s.filter (· ≠ ' ')

/-- `text.split(sep)` for a fixed nonempty separator (leftmost,
non-overlapping). The fuel only bounds the recursion. -/
def splitSubAux (sep : List Char) : Nat → List Char → List (List Char)
  | 0, s => [s]
  | _ + 1, [] => [[]]
  | fuel + 1, c :: rest =>
      if sep.isPrefixOf (c :: rest) then
        [] :: splitSubAux sep fuel ((c :: rest).drop sep.length)
      else
        match splitSubAux sep fuel rest with
        | [] => [[c]]
        | g :: gs => (c :: g) :: gs

def splitSub (sep s : List Char) : List (List Char) :=
  splitSubAux sep (s.length + 1) s

/-- `trim_comma_split(text)`: drop spaces, split on `,`, keep the
nonempty groups. -/
def trim_comma_split (text : String) : List String :=
  ((splitSub [','] (remove_spaces text.data)).filter (· ≠ [])).map String.mk

/-- `flat_map_trim_comma_split(lst)` (the `lst = None` case also gives
`[]`, as for an empty list). -/
def flat_map_trim_comma_split (lst : List String) : List String :=
  (lst.map trim_comma_split).flatten

/-- `diff_list(l1, l2)`: elements of `l1` not in `l2`, duplicates kept. -/
def diff_list (l1 l2 : List String) : List String :=
  l1.filter (fun e => ¬ l2.contains e)

/-- `subset_list(l1, l2)`: `not diff_list(l1, l2)`. -/
def subset_list (l1 l2 : List String) : Bool :=
  (diff_list l1 l2).isEmpty

/-- `subset_comma_list(cstr1, cstr2)`. -/
def subset_comma_list (cstr1 cstr2 : String) : Bool :=
  subset_list (trim_comma_split cstr1) (trim_comma_split cstr2)

/-- `is_unique(s)`: `len(s) == len(set(s))`. -/
def is_unique (s : List String) : Bool :=
  s.dedup.length == s.length

/-- Strict lexicographic comparison of code-point sequences (Python
string `<`). -/
def lexLt : List Char → List Char → Bool
  | [], [] => false
  | [], _ :: _ => true
  | _ :: _, [] => false
  | c :: cs, d :: ds =>
      if c.toNat < d.toNat then true
      else if d.toNat < c.toNat then false
      else lexLt cs ds

/-- Python's `(len(a), a) <= (len(b), b)` on strings: the sort key used
by `uniqify_tags` and `first_shortest_tag`. -/
def tagLeB (a b : String) : Bool :=
  a.data.length < b.data.length ||
    (a.data.length == b.data.length && (lexLt a.data b.data || a == b))

def tagLe (a b : String) : Prop := tagLeB a b = true

instance : DecidableRel tagLe := fun a b => by
  unfold tagLe; infer_instance

/-- `uniqify_tags(list_tags)`: `sorted(set(list_tags), key=(len, s))`.
The `(len, lexicographic)` key is injective on the distinct elements of
a set, so the sorted result is the unique `tagLe`-sorted enumeration of
the distinct elements; any correct sort computes it. -/
def uniqify_tags (list_tags : List String) : List String :=
  (list_tags.dedup).insertionSort tagLe

/-- `merge_dict(a, b)`: Python dict update; existing keys keep their
position and take `b`'s value, new keys are appended in `b`'s order. -/
def dictSet (d : List (String × α)) (k : String) (v : α) : List (String × α) :=
  match d with
  | [] => [(k, v)]
  | (k', v') :: rest => if k' = k then (k, v) :: rest else (k', v') :: dictSet rest k v

def merge_dict (a b : List (String × α)) : List (String × α) :=
  b.foldl (fun res kv => dictSet res kv.1 kv.2) a

/-! ### Build items and propagate-expression evaluation -/

/-- One element of `get_list_dict_dockerfile_matrix_tags_args`'s
result. -/
structure BuildItem where
  context : String
  dockerfile : String
  path : String
  matrix : List (String × String)
  tags : List String
  args : List (String × String)
  keywords : List String
  after_deploy_script : List String
  deriving DecidableEq, Repr

def matrixValue (m : List (String × String)) : Value :=
  .vdict (m.map fun kv => (kv.1, .vstr kv.2))

def listValue (l : List String) : Value :=
  .vlist (l.map .vstr)

/-- `eval_propagate(expr, build_elt)`. -/
def eval_propagate (expr : String) (b : BuildItem) : Except Err String :=
  eval_bashlike2 expr (matrixValue b.matrix) (listValue b.tags) (listValue b.keywords)

/-- `list(map(f, lst))` for a fallible `f`: evaluate in order, the
first exception propagates. -/
def mapOkList {α β : Type} (f : α → Except Err β) : List α → Except Err (List β)
  | [] => .ok []
  | a :: rest => do
      let b ← f a
      let bs ← mapOkList f rest
      .ok (b :: bs)

/-- `uniq_cat_eval_propagate(expr, build_data)`: expand `expr` against
every build item, comma-split and flatten, deduplicate and sort by
`(len, lex)`. -/
def uniq_cat_eval_propagate (expr : String) (build_data : List BuildItem) :
    Except Err (List String) := do
  let list_str ← mapOkList (eval_propagate expr) build_data
  .ok (uniqify_tags (flat_map_trim_comma_split list_str))

/-! ### The condition evaluator (`eval_if`) -/

/-- A YAML condition: `None`, a single string, or a conjunction list. -/
inductive Cond where
  | cnone
  | cstr (s : String)
  | clist (l : List Cond)

/-- Python `str.strip()` (for the ASCII whitespace the repo uses). -/
def pyStrip (s : List Char) : List Char :=
  ((s.dropWhile Char.isWhitespace).reverse.dropWhile Char.isWhitespace).reverse

/-- One operand of a condition: `args[i].strip().replace('"', '')`,
then template expansion. -/
def eval_if_operand (arg : List Char) (matrix gvars : Value) : Except Err String :=
  eval_bashlike (String.mk ((pyStrip arg).filter (· ≠ '"'))) matrix gvars

/-- `eval_if` on a single condition string. -/
def eval_if_str (raw : String) (matrix gvars : Value) : Except Err Bool :=
  let equality : Bool := (splitSub ['=', '='] raw.data).length > 1
  let inequality : Bool := (splitSub ['!', '='] raw.data).length > 1
  if equality || inequality then
    let args := if equality then splitSub ['=', '='] raw.data
                else splitSub ['!', '='] raw.data
    if args.length ≠ 2 then
      .error (.keeperError ("Wrong number of arguments: '" ++ raw ++ "'."))
    else do
      let a ← eval_if_operand (args.getD 0 []) matrix gvars
      let b ← eval_if_operand (args.getD 1 []) matrix gvars
      if equality then .ok (a == b) else .ok (a != b)
  else
    .error (.keeperError ("Unsupported condition: '" ++ raw ++ "'."))

/-- `eval_if(raw_condition, matrix, gvars)`: `None` is vacuously true,
a list is a short-circuit conjunction. -/
def eval_if : Cond → Value → Value → Except Err Bool
  | .cnone, _, _ => .ok true
  | .cstr s, matrix, gvars => eval_if_str s matrix gvars
  | .clist l, matrix, gvars => go l matrix gvars
where go : List Cond → Value → Value → Except Err Bool
  | [], _, _ => .ok true
  | c :: rest, matrix, gvars => do
      let e ← eval_if c matrix gvars
      if e then go rest matrix gvars else .ok false

/-! ### Matrix expansion (`product_build_matrix`) -/

/-- One pass of the `for key in matrix` loop: `for value in
matrix[key]: for e in old: res.append({**e, key: value})` (the key is
new, so the dict assignment appends it). -/
def expandAxis (key : String) (values : List String)
    (old : List (List (String × String))) : List (List (String × String)) :=
  (values.map (fun v => old.map (fun e => e ++ [(key, v)]))).flatten

def product_core (matrix : List (String × List String)) :
    List (List (String × String)) :=
  matrix.foldl (fun old kv => expandAxis kv.1 kv.2 old) [[]]

/-- `product_build_matrix(matrix)`; `assert matrix` fails on an empty
mapping. -/
def product_build_matrix (matrix : List (String × List String)) :
    Except Err (List (List (String × String))) :=
  if matrix = [] then .error (.assertionError "assert matrix")
  else .ok (product_core matrix)

/-! ### Global tag-uniqueness check (`get_check_tags`) -/

/-- `get_check_tags(seq)`: concatenate the compiled items' tags; fail
unless they are globally unique. -/
def get_check_tags (seq : List BuildItem) : Except Err (List String) :=
  let res := (seq.map (·.tags)).flatten
  if is_unique res then .ok res
  else .error (.keeperError "Error: there are some tags duplicates.")

/-! ### The build-plan compiler
(`get_list_dict_dockerfile_matrix_tags_args`)

The ambient clock is modelled as `dateEnv : Nat → String` indexed by
the number of earlier `get_build_date()` calls in the run, and the
network lookup of `get_commit` as `commitEnv : CommitApi → String`. -/

/-- A tag candidate: `{tag: template, if: condition}` (a missing `if`
behaves as `None`). -/
structure TagItem where
  tag : String
  cond : Cond

/-- One entry of a normalized `after_deploy` list: either a plain
string (kept verbatim) or `{run: code, if: condition}`. -/
inductive AfterDeployEntry where
  | raw (s : String)
  | scripted (run : String) (cond : Cond)

structure CommitApi where
  fetcher : String
  repo : String
  branch : String
  deriving DecidableEq, Repr

structure BuildSpec where
  context : String
  dockerfile : Option String
  tags : List TagItem
  args : List (String × String)
  keywords : List String
  after_deploy : List AfterDeployEntry
  after_deploy_export : List (String × String)
  commit_api : Option CommitApi

structure ImageSpec where
  matrix : List (String × List String)
  build : BuildSpec

structure KSpec where
  images : List ImageSpec
  args : List (String × String)
  vars : List (String × String)

/-- `check_trim_relative_path(path)`. An empty path raises
`IndexError` (`path[0]`). -/
def check_trim_relative_path (path : String) : Except Err String :=
  match path.data with
  | [] => .error (.indexError "string index out of range")
  | '/' :: _ =>
      .error (.keeperError ("Error: expecting a relative path, but was given '"
        ++ path ++ "'."))
  | '.' :: '/' :: rest => .ok (String.mk rest)
  | _ => .ok path

/-- `get_commit(commit_api)`: only the `github`/`gitlab` fetchers are
supported; the fetched SHA itself comes from the network environment. -/
def get_commit (commitEnv : CommitApi → String) (api : CommitApi) :
    Except Err String :=
  if api.fetcher = "github" ∨ api.fetcher = "gitlab" then .ok (commitEnv api)
  else .error (.keeperError ("Error: do not support 'fetcher: " ++ api.fetcher ++ "'"))

def strDictValue (d : List (String × String)) : Value :=
  .vdict (d.map fun kv => (kv.1, .vstr kv.2))

/-- The body of the `for matrix in list_matrix` loop: compile one
build item. `ctr` counts earlier `get_build_date()` calls. -/
def compileMatrixEntry (gval : Value) (raw_args : List (String × String))
    (build : BuildSpec) (context dfile : String)
    (dateEnv : Nat → String) (commitEnv : CommitApi → String)
    (m : List (String × String)) (ctr : Nat) : Except Err BuildItem := do
  let mval := matrixValue m
  let tags ← build.tags.foldlM (fun (acc : List String) ti => do
    let c ← eval_if ti.cond mval gval
    if c then do
      let t ← eval_bashlike ti.tag mval gval  -- NOT defaults
      pure (acc ++ [t])
    else pure acc) []
  let defaults0 := [("build_date", Value.vstr (dateEnv ctr))]
  let defaults ← match build.commit_api with
    | some api => do
        let sha ← get_commit commitEnv api
        pure (Value.vdict (defaults0 ++ [("commit", Value.vstr sha)]))
    | none => pure (Value.vdict defaults0)
  let args ← raw_args.foldlM (fun (acc : List (String × String)) kv => do
    let v ← eval_bashlike kv.2 mval gval defaults
    pure (acc ++ [(kv.1, v)])) []
  let keywords ← mapOkList (fun k => eval_bashlike k mval gval defaults) build.keywords
  let after_deploy_export ← build.after_deploy_export.foldlM
    (fun (acc : List String) kv => do
      let v ← eval_bashlike kv.2 mval gval defaults
      pure (acc ++ ["export " ++ kv.1 ++ "='" ++ v ++ "'"])) []
  let script0 := if build.after_deploy.isEmpty then [] else after_deploy_export
  let after_deploy_script ← build.after_deploy.foldlM
    (fun (acc : List String) entry =>
      match entry with
      | .raw s => pure (acc ++ [s])  -- no { } interpolation
      | .scripted run c => do
          let b ← eval_if c mval gval
          if b then pure (acc ++ [run]) else pure acc) script0
  pure { context := context, dockerfile := dfile,
         path := context ++ "/" ++ dfile,
         matrix := m, tags := tags, args := args, keywords := keywords,
         after_deploy_script := after_deploy_script }

/-- The body of the `for item in images` loop. Returns the compiled
items and the advanced `get_build_date()` call counter. -/
def compileImage (gval : Value) (args1 : List (String × String))
    (dateEnv : Nat → String) (commitEnv : CommitApi → String)
    (item : ImageSpec) (ctr : Nat) : Except Err (List BuildItem × Nat) := do
  let list_matrix ← product_build_matrix item.matrix
  let dfile ← match item.build.dockerfile with
    | some d => check_trim_relative_path d
    | none => pure "Dockerfile"
  let context ← check_trim_relative_path item.build.context
  let raw_args := merge_dict args1 item.build.args
  list_matrix.foldlM (fun (st : List BuildItem × Nat) m => do
    let bi ← compileMatrixEntry gval raw_args item.build context dfile
      dateEnv commitEnv m st.2
    pure (st.1 ++ [bi], st.2 + 1)) ([], ctr)

/-- `get_list_dict_dockerfile_matrix_tags_args(json, debug)` (the
`debug` flag only prints). -/
def get_list_dict_dockerfile_matrix_tags_args (spec : KSpec)
    (dateEnv : Nat → String) (commitEnv : CommitApi → String) :
    Except Err (List BuildItem) := do
  let gval := strDictValue spec.vars
  let st ← spec.images.foldlM (fun (st : List BuildItem × Nat) item => do
    let (items, ctr) ← compileImage gval spec.args dateEnv commitEnv item st.2
    pure (st.1 ++ items, ctr)) ([], 0)
  pure st.1

/-! ### The propagation-strategy resolver (`get_propagate_strategy`) -/

/-- One element of a target's `strategy` list. Fields are `Option`s;
`pop` of a missing field is a `KeyError`, and the destructive
`check_no_fields` leftover checks become checks that the unconsumed
optional fields are absent. -/
structure StratElt where
  whenField : Option String
  expr : Option String
  subsetField : Option String
  mode : Option String
  item : Option String

/-- A resolved strategy: the adopted `mode`, plus the interpolated
keyword list when `mode = 'rebuild-keyword'`. Manual overrides have
this same shape. -/
structure ResStrat where
  mode : String
  item : Option (List String)
  deriving DecidableEq, Repr

/-- One value of the `'images.yml'.propagate` table. -/
structure PropTarget where
  api_token_env_var : String
  gitlab_domain : String
  gitlab_project : String
  strategy : List StratElt

/-- One entry of the resolved propagation table. -/
structure ResEntry where
  api_token_env_var : String
  gitlab_domain : String
  gitlab_project : String
  strategy : ResStrat
  deriving DecidableEq, Repr

/-- The trigger bundle (`'nightly' in triggered and
triggered['nightly']`, etc.). -/
structure Triggered where
  nightly : Bool
  rebuild_all : Bool
  deriving DecidableEq, Repr

/-- `check_output_mode(mode)`. -/
def check_output_mode (mode : String) : Except Err Unit :=
  if mode = "nil" ∨ mode = "minimal" ∨ mode = "nightly" ∨
     mode = "rebuild-keyword" ∨ mode = "rebuild-all" then .ok ()
  else .error (.keeperError ("Error: invalid output value 'mode: " ++ mode ++ "'."))

/-- `check_manual_mode(mode)` (used when parsing `--propagate`; `nil`
is not a manual mode). -/
def check_manual_mode (mode : String) : Except Err Unit :=
  if mode = "minimal" ∨ mode = "nightly" ∨
     mode = "rebuild-keyword" ∨ mode = "rebuild-all" then .ok ()
  else .error (.keeperError ("Error: invalid manual value 'mode: " ++ mode ++ "'."))

/-- The shared `BEGIN idem … END idem` adoption block: pop `mode`; on
`rebuild-keyword` pop and interpolate `item`, otherwise validate the
mode; then `check_no_fields` on whatever was never popped
(`exprSubsetLive` says whether `expr`/`subset` are still in the dict,
i.e. the rule kind was not forall/exists; `item` is only popped in the
`rebuild-keyword` branch). -/
def adoptRule (exprSubsetLive : Bool) (builds : List BuildItem)
    (elt : StratElt) : Except Err ResStrat := do
  let mode ← match elt.mode with
    | some m => pure m
    | none => .error (.keyError "mode")
  if mode = "rebuild-keyword" then do
    let raw_item ← match elt.item with
      | some i => pure i
      | none => .error (.keyError "item")
    let item ← uniq_cat_eval_propagate raw_item builds
    if exprSubsetLive ∧ (elt.expr.isSome ∨ elt.subsetField.isSome) then
      .error (.exitError "Unexpected fields in strategy")
    else pure { mode := mode, item := some item }
  else do
    check_output_mode mode
    if elt.item.isSome ∨ (exprSubsetLive ∧ (elt.expr.isSome ∨ elt.subsetField.isSome)) then
      .error (.exitError "Unexpected fields in strategy")
    else pure { mode := mode, item := none }

/-- The `case 'forall'` accumulator loop: true iff every build item
passes the comma-list subset test, stopping at the first failure. -/
def forallAcc (expr subsetT : String) : List BuildItem → Except Err Bool
  | [] => .ok true
  | b :: rest => do
      let e_expr ← eval_propagate expr b
      let e_subset ← eval_propagate subsetT b
      if subset_comma_list e_expr e_subset then forallAcc expr subsetT rest
      else .ok false

/-- The `case 'exists'` accumulator loop (dual). -/
def existsAcc (expr subsetT : String) : List BuildItem → Except Err Bool
  | [] => .ok false
  | b :: rest => do
      let e_expr ← eval_propagate expr b
      let e_subset ← eval_propagate subsetT b
      if subset_comma_list e_expr e_subset then .ok true
      else existsAcc expr subsetT rest

/-- The `for elt in strat` loop: first matching rule wins; `none` when
the list is exhausted without a match. An unknown `when` value hits the
source's error path, which itself re-reads the already-popped `'when'`
key and so raises `KeyError`. -/
def resolve_strategy (builds : List BuildItem) (triggered : Triggered) :
    List StratElt → Except Err (Option ResStrat)
  | [] => .ok none
  | elt :: rest =>
      match elt.whenField with
      | some w =>
          if w = "nightly" then
            if triggered.nightly then do
              let rs ← adoptRule true builds elt
              pure (some rs)
            else resolve_strategy builds triggered rest
          else if w = "rebuild-all" then
            if triggered.rebuild_all then do
              let rs ← adoptRule true builds elt
              pure (some rs)
            else resolve_strategy builds triggered rest
          else if w = "forall" then do
            let expr ← match elt.expr with
              | some e => pure e
              | none => .error (.keyError "expr")
            let subsetT ← match elt.subsetField with
              | some s => pure s
              | none => .error (.keyError "subset")
            let acc ← forallAcc expr subsetT builds
            if acc then do
              let rs ← adoptRule false builds elt
              pure (some rs)
            else resolve_strategy builds triggered rest
          else if w = "exists" then do
            let expr ← match elt.expr with
              | some e => pure e
              | none => .error (.keyError "expr")
            let subsetT ← match elt.subsetField with
              | some s => pure s
              | none => .error (.keyError "subset")
            let acc ← existsAcc expr subsetT builds
            if acc then do
              let rs ← adoptRule false builds elt
              pure (some rs)
            else resolve_strategy builds triggered rest
          else .error (.keyError "when")
      | none => do
          let rs ← adoptRule true builds elt
          pure (some rs)

/-- `^[a-zA-Z_]+[a-zA-Z0-9_]*$`: nonempty, all chars in
`[a-zA-Z0-9_]`, first char not a digit. -/
def valid_api_token_env_var (s : String) : Bool :=
  match s.data with
  | [] => false
  | c :: rest =>
      (c.isAlpha || c = '_') &&
      (c :: rest).all (fun d => d.isAlphanum || d = '_')

/-- `check_domain(text)`'s regexp
`^[a-z0-9]+(-[a-z0-9]+)*(\.[a-z0-9]+(-[a-z0-9]+)*)+$`: at least two
dot-separated labels, each a dash-separated sequence of nonempty
`[a-z0-9]` runs. -/
def valid_domain (text : String) : Bool :=
  let labels := splitSub ['.'] text.data
  labels.length ≥ 2 && labels.all (fun l =>
    (splitSub ['-'] l).all (fun p =>
      ¬ p.isEmpty && p.all (fun c => c.isLower || c.isDigit)))

/-- The per-slug validation that precedes the manual/automatic split:
`api_token_env_var` shape, `gitlab_domain` shape, and `'when' is
mandatory except for the last strategy element`. -/
def checkTarget (slug : String) (prop1 : PropTarget) : Except Err Unit := do
  if ¬ valid_api_token_env_var prop1.api_token_env_var then
    .error (.keeperError ("Error: invalid api_token_env_var for " ++ slug ++ "."))
  else if ¬ valid_domain prop1.gitlab_domain then
    .error (.keeperError ("Error: '" ++ prop1.gitlab_domain ++
      "' is not a valid domain name."))
  else if ¬ prop1.strategy.dropLast.all (fun e => e.whenField.isSome) then
    .error (.keeperError ("Error: propagate: " ++ slug ++
      ": strategy: 'when' is mandatory (except for last list element)."))
  else .ok ()

/-- The `for slug in prop` loop of `get_propagate_strategy`,
threading the shrinking manual-override table and the accumulated
result. -/
def propagateLoop (builds : List BuildItem) (triggered : Triggered)
    (atLeastOneManual : Bool) :
    List (String × PropTarget) → List (String × ResStrat) →
    List (String × ResEntry) → Except Err (List (String × ResEntry))
  | [], manual, acc =>
      -- check that all manually-specified propagate slugs belonged
      -- to the strategy table
      if atLeastOneManual ∧ ¬ manual.isEmpty then
        .error (.exitError "Unexpected fields in manual_propagate")
      else .ok acc
  | (slug, prop1) :: rest, manual, acc => do
      checkTarget slug prop1
      match lookupStr manual slug with
      | some ms =>
          propagateLoop builds triggered atLeastOneManual rest
            (manual.filter (fun kv => kv.1 ≠ slug))
            (acc ++ [(slug,
              { api_token_env_var := prop1.api_token_env_var,
                gitlab_domain := prop1.gitlab_domain,
                gitlab_project := prop1.gitlab_project,
                strategy := ms })])
      | none =>
          if atLeastOneManual then
            -- disable automatic strategy; will try other (manual) slugs
            propagateLoop builds triggered atLeastOneManual rest manual acc
          else do
            let r ← resolve_strategy builds triggered prop1.strategy
            match r with
            | some rs =>
                if rs.mode ≠ "nil" then
                  propagateLoop builds triggered atLeastOneManual rest manual
                    (acc ++ [(slug,
                      { api_token_env_var := prop1.api_token_env_var,
                        gitlab_domain := prop1.gitlab_domain,
                        gitlab_project := prop1.gitlab_project,
                        strategy := rs })])
                else propagateLoop builds triggered atLeastOneManual rest manual acc
            | none => propagateLoop builds triggered atLeastOneManual rest manual acc

/-- `get_propagate_strategy(spec, build_data_chosen, triggered,
manual_propagate)`. -/
def get_propagate_strategy (prop : List (String × PropTarget))
    (build_data_chosen : List BuildItem) (triggered : Triggered)
    (manual_propagate : List (String × ResStrat)) :
    Except Err (List (String × ResEntry)) :=
  propagateLoop build_data_chosen triggered (!manual_propagate.isEmpty)
    prop manual_propagate []

/-! ### Concrete inputs used by witnesses and counterexamples -/

def exItemDev : BuildItem :=
  ⟨"c", "Dockerfile", "c/Dockerfile", [("coq", "dev")], ["dev"], [], ["kdev"], []⟩

def exItem819 : BuildItem :=
  ⟨"c", "Dockerfile", "c/Dockerfile", [("coq", "8.19")], ["8.19"], [], ["k819"], []⟩

/-- A one-image specification whose keyword template reads the
`build_date` default. -/
def exSpecClock : KSpec :=
  ⟨[⟨[("a", ["x"])], ⟨"ctx", none, [], [], ["{defaults[build_date]}"], [], [], none⟩⟩],
   [], []⟩

def exTarget (strat : List StratElt) : PropTarget :=
  ⟨"TOKEN_VAR", "gitlab.com", "42", strat⟩

def exDefaultRule : StratElt := ⟨none, none, none, some "minimal", none⟩

/-! ### Helper lemmas -/

theorem is_unique_iff_nodup (l : List String) : is_unique l = true ↔ l.Nodup := by
  unfold is_unique
  constructor
  · intro h
    have hlen : l.dedup.length = l.length := by simpa using h
    have hsub : List.Sublist l.dedup l := List.dedup_sublist l
    have : l.dedup = l := hsub.eq_of_length hlen
    rw [← this]
    exact l.nodup_dedup
  · intro h
    simp [List.dedup_eq_self.mpr h]

theorem subset_list_iff (l1 l2 : List String) :
    subset_list l1 l2 = true ↔ ∀ x ∈ l1, x ∈ l2 := by
  unfold subset_list diff_list
  rw [List.isEmpty_iff, List.filter_eq_nil_iff]
  constructor
  · intro h x hx
    have := h x hx
    simpa using this
  · intro h x hx
    simpa using h x hx

theorem subset_comma_list_iff (a b : String) :
    subset_comma_list a b = true ↔
      ∀ x ∈ trim_comma_split a, x ∈ trim_comma_split b := by
  unfold subset_comma_list
  exact subset_list_iff _ _

/-! ### Claim theorems -/

/-- C8: applying the non-greedy suffix-stripping modifier `%.*` to the
string `8.10.0` yields `8.10`, and the greedy modifier `%%.*` applied
to the same string yields `8`, both as a single `get_field` access step
and through full template evaluation. -/
theorem C8_suffix_stripping :
    getFieldStep (.vstr "8.10.0") ⟨false, "%.*"⟩ = .ok (.vstr "8.10") ∧
    getFieldStep (.vstr "8.10.0") ⟨false, "%%.*"⟩ = .ok (.vstr "8") ∧
    formatTmpl "{s[%.*]}" [("s", .vstr "8.10.0")] = .ok "8.10" ∧
    formatTmpl "{s[%%.*]}" [("s", .vstr "8.10.0")] = .ok "8" :=
  ⟨rfl, rfl, rfl, rfl⟩

/-- C5 counterexample: a bracketed key lookup whose name starts with
`_` is *not* redacted — it performs a plain lookup, returning the
underlying value (and it can also fail with `KeyError` on a missing
key), contradicting the claim that both access styles yield the empty
string. -/
theorem C5_counterexample :
    formatTmpl "{matrix[_v]}" [("matrix", .vdict [("_v", .vstr "secret")])]
      = .ok "secret" ∧
    ("secret" : String) ≠ "" ∧
    formatTmpl "{matrix[_w]}" [("matrix", .vdict [("_v", .vstr "secret")])]
      = .error (.keyError "_w") :=
  ⟨rfl, by decide, rfl⟩

/-- C5 (amended): only attribute-style access steps are redacted: every
access step with `is_attr` set whose field name begins with `_` yields
the empty string, regardless of the underlying value, and never fails. -/
theorem C5_attr_redaction (obj : Value) (name : String)
    (h : name.data.take 1 = ['_']) :
    getFieldStep obj ⟨true, name⟩ = .ok (.vstr "") := by
  simp [getFieldStep, h]

/-- C5 witness: the redaction theorem applied at a concrete private
attribute name over a non-empty underlying value. -/
theorem C5_attr_redaction_witness :
    getFieldStep (.vstr "secret") ⟨true, "_val"⟩ = .ok (.vstr "") :=
  C5_attr_redaction (.vstr "secret") "_val" rfl

/-- C3: `get_check_tags` on the full compiled list fails with the
duplicate-tags error exactly when the in-order concatenation of the
items' tag lists has a duplicate, and returns that concatenation
unchanged when the tags are pairwise distinct. -/
theorem C3_tag_uniqueness (seq : List BuildItem) :
    (¬ ((seq.map (·.tags)).flatten).Nodup →
        get_check_tags seq = .error (.keeperError "Error: there are some tags duplicates.")) ∧
    (((seq.map (·.tags)).flatten).Nodup →
        get_check_tags seq = .ok ((seq.map (·.tags)).flatten)) := by
  unfold get_check_tags
  constructor
  · intro hdup
    rw [if_neg]
    intro h
    exact hdup ((is_unique_iff_nodup _).mp h)
  · intro hnodup
    rw [if_pos ((is_unique_iff_nodup _).mpr hnodup)]

/-- C3 witness: the tag-uniqueness check applied to a concrete
two-item plan with distinct tags, and to one with a duplicated tag. -/
theorem C3_tag_uniqueness_witness :
    get_check_tags
      [⟨"c", "Dockerfile", "c/Dockerfile", [("coq", "dev")], ["dev", "latest"], [], [], []⟩,
       ⟨"c", "Dockerfile", "c/Dockerfile", [("coq", "8.19")], ["8.19"], [], [], []⟩]
      = .ok ["dev", "latest", "8.19"] ∧
    get_check_tags
      [⟨"c", "Dockerfile", "c/Dockerfile", [("coq", "dev")], ["dev"], [], [], []⟩,
       ⟨"c", "Dockerfile", "c/Dockerfile", [("coq", "8.19")], ["dev"], [], [], []⟩]
      = .error (.keeperError "Error: there are some tags duplicates.") :=
  ⟨(C3_tag_uniqueness _).2 (by decide), (C3_tag_uniqueness _).1 (by decide)⟩

/-- C10: over an empty compiled build-item list, a forall rule matches
vacuously — its mode is adopted for any `expr`/`subset` templates,
which are never expanded — and an exists rule never matches, falling
through to the remaining rules. -/
theorem C10_empty_build_list (expr subsetT : String) (trig : Triggered)
    (rest : List StratElt) :
    forallAcc expr subsetT [] = .ok true ∧
    existsAcc expr subsetT [] = .ok false ∧
    resolve_strategy [] trig
        (⟨some "forall", some expr, some subsetT, some "minimal", none⟩ :: rest)
      = .ok (some ⟨"minimal", none⟩) ∧
    resolve_strategy [] trig
        (⟨some "exists", some expr, some subsetT, some "minimal", none⟩ :: rest)
      = resolve_strategy [] trig rest :=
  ⟨rfl, rfl, rfl, rfl⟩

theorem char_toNat_inj {c d : Char} (h : c.toNat = d.toNat) : c = d := by
  apply Char.eq_of_val_eq
  unfold Char.toNat at h
  exact UInt32.toNat.inj h

theorem string_data_inj {a b : String} (h : a.data = b.data) : a = b := by
  cases a; cases b; exact congrArg String.mk h

theorem lexLt_trichotomy : ∀ xs ys : List Char,
    lexLt xs ys = true ∨ lexLt ys xs = true ∨ xs = ys
  | [], [] => by simp [lexLt]
  | [], _ :: _ => by simp [lexLt]
  | _ :: _, [] => by simp [lexLt]
  | c :: cs, d :: ds => by
      by_cases h1 : c.toNat < d.toNat
      · left; simp [lexLt, h1]
      · by_cases h2 : d.toNat < c.toNat
        · right; left; simp [lexLt, h2]
        · have hcd : c = d := char_toNat_inj (by omega)
          subst hcd
          rcases lexLt_trichotomy cs ds with h | h | h
          · left; simp [lexLt, h]
          · right; left; simp [lexLt, h]
          · right; right; rw [h]

theorem lexLt_trans : ∀ xs ys zs : List Char,
    lexLt xs ys = true → lexLt ys zs = true → lexLt xs zs = true
  | xs, [], _ => by intro h _; cases xs <;> simp [lexLt] at h
  | _, _ :: _, [] => by intro _ h; simp [lexLt] at h
  | [], y :: ys, z :: zs => by intro _ _; simp [lexLt]
  | x :: xs, y :: ys, z :: zs => by
      intro h1 h2
      by_cases hxy : x.toNat < y.toNat <;> by_cases hyz : y.toNat < z.toNat
      · simp [lexLt]; omega
      · by_cases hzy : z.toNat < y.toNat
        · simp [lexLt, hyz, hzy] at h2
        · have : y = z := char_toNat_inj (by omega)
          subst this
          simp [lexLt, hxy]
      · by_cases hyx : y.toNat < x.toNat
        · simp [lexLt, hxy, hyx] at h1
        · have : x = y := char_toNat_inj (by omega)
          subst this
          simp [lexLt, hyz]
      · by_cases hyx : y.toNat < x.toNat
        · simp [lexLt, hxy, hyx] at h1
        · by_cases hzy : z.toNat < y.toNat
          · simp [lexLt, hyz, hzy] at h2
          · have h3 : x = y := char_toNat_inj (by omega)
            have h4 : y = z := char_toNat_inj (by omega)
            subst h3; subst h4
            simp [lexLt, hxy, hyx] at h1 h2 ⊢
            exact lexLt_trans xs ys zs h1 h2

theorem tagLe_iff (a b : String) :
    tagLe a b ↔ a.data.length < b.data.length ∨
      (a.data.length = b.data.length ∧ (lexLt a.data b.data = true ∨ a = b)) := by
  simp [tagLe, tagLeB]

instance : IsTotal String tagLe where
  total a b := by
    rw [tagLe_iff, tagLe_iff]
    rcases Nat.lt_trichotomy a.data.length b.data.length with h | h | h
    · left; left; exact h
    · rcases lexLt_trichotomy a.data b.data with hl | hl | hl
      · left; right; exact ⟨h, Or.inl hl⟩
      · right; right; exact ⟨h.symm, Or.inl hl⟩
      · left; right; exact ⟨h, Or.inr (string_data_inj hl)⟩
    · right; left; exact h

instance : IsTrans String tagLe where
  trans a b c := by
    rw [tagLe_iff, tagLe_iff, tagLe_iff]
    rintro (h1 | ⟨h1, hl1⟩) (h2 | ⟨h2, hl2⟩)
    · left; omega
    · left; omega
    · left; omega
    · right
      refine ⟨by omega, ?_⟩
      rcases hl1 with hl1 | rfl
      · rcases hl2 with hl2 | rfl
        · exact Or.inl (lexLt_trans _ _ _ hl1 hl2)
        · exact Or.inl hl1
      · exact hl2

theorem except_ok_bind {ε α β : Type} (a : α) (f : α → Except ε β) :
    (Except.ok a : Except ε α) >>= f = f a := rfl

theorem mapOkList_ok {α β : Type} (f : α → Except Err β) (g : α → β) :
    ∀ l : List α, (∀ a ∈ l, f a = .ok (g a)) → mapOkList f l = .ok (l.map g)
  | [], _ => rfl
  | a :: rest, h => by
      have ha : f a = .ok (g a) := h a (by simp)
      have ih := mapOkList_ok f g rest (fun x hx => h x (by simp [hx]))
      simp [mapOkList, ha, ih, except_ok_bind]

theorem forallAcc_eq (expr subsetT : String) (f g : BuildItem → String) :
    ∀ builds : List BuildItem,
      (∀ b ∈ builds, eval_propagate expr b = .ok (f b)) →
      (∀ b ∈ builds, eval_propagate subsetT b = .ok (g b)) →
      forallAcc expr subsetT builds =
        .ok (builds.all fun b => subset_comma_list (f b) (g b))
  | [], _, _ => rfl
  | b :: rest, hf, hg => by
      have hfb : eval_propagate expr b = .ok (f b) := hf b (by simp)
      have hgb : eval_propagate subsetT b = .ok (g b) := hg b (by simp)
      have ih := forallAcc_eq expr subsetT f g rest
        (fun x hx => hf x (by simp [hx])) (fun x hx => hg x (by simp [hx]))
      by_cases hs : subset_comma_list (f b) (g b) = true
      · simp [forallAcc, hfb, hgb, hs, ih, except_ok_bind]
      · simp [forallAcc, hfb, hgb, hs, except_ok_bind]

theorem existsAcc_eq (expr subsetT : String) (f g : BuildItem → String) :
    ∀ builds : List BuildItem,
      (∀ b ∈ builds, eval_propagate expr b = .ok (f b)) →
      (∀ b ∈ builds, eval_propagate subsetT b = .ok (g b)) →
      existsAcc expr subsetT builds =
        .ok (builds.any fun b => subset_comma_list (f b) (g b))
  | [], _, _ => rfl
  | b :: rest, hf, hg => by
      have hfb : eval_propagate expr b = .ok (f b) := hf b (by simp)
      have hgb : eval_propagate subsetT b = .ok (g b) := hg b (by simp)
      have ih := existsAcc_eq expr subsetT f g rest
        (fun x hx => hf x (by simp [hx])) (fun x hx => hg x (by simp [hx]))
      by_cases hs : subset_comma_list (f b) (g b) = true
      · simp [existsAcc, hfb, hgb, hs, except_ok_bind]
      · simp [existsAcc, hfb, hgb, hs, ih, except_ok_bind]

/-- C2: during automatic rule evaluation, a forall rule matches iff
every compiled build item passes the comma-list subset test between
its expanded `expr` and expanded `subset`, and an exists rule matches
iff some build item passes that same test (the `f`/`g` hypotheses name
the per-item expansion results of the two templates). -/
theorem C2_quantifier_rules (expr subsetT : String) (builds : List BuildItem)
    (f g : BuildItem → String)
    (hf : ∀ b ∈ builds, eval_propagate expr b = .ok (f b))
    (hg : ∀ b ∈ builds, eval_propagate subsetT b = .ok (g b)) :
    (forallAcc expr subsetT builds = .ok true ↔
      ∀ b ∈ builds, ∀ x ∈ trim_comma_split (f b), x ∈ trim_comma_split (g b)) ∧
    (existsAcc expr subsetT builds = .ok true ↔
      ∃ b ∈ builds, ∀ x ∈ trim_comma_split (f b), x ∈ trim_comma_split (g b)) := by
  rw [forallAcc_eq expr subsetT f g builds hf hg,
      existsAcc_eq expr subsetT f g builds hf hg]
  constructor
  · simp [List.all_eq_true, subset_comma_list_iff]
  · simp [List.any_eq_true, subset_comma_list_iff]

/-- C2 witness: the quantifier characterization applied to a concrete
two-item build list: `{matrix[coq]} ⊆ dev,8.19` holds for every item,
and `{matrix[coq]} ⊆ dev` holds for some item. -/
theorem C2_quantifier_rules_witness :
    forallAcc "{matrix[coq]}" "dev,8.19" [exItemDev, exItem819] = .ok true ∧
    existsAcc "{matrix[coq]}" "dev" [exItemDev, exItem819] = .ok true := by
  constructor
  · exact (C2_quantifier_rules "{matrix[coq]}" "dev,8.19" [exItemDev, exItem819]
      (fun b => if b = exItemDev then "dev" else "8.19")
      (fun _ => "dev,8.19") (by decide) (by decide)).1.mpr (by decide)
  · exact (C2_quantifier_rules "{matrix[coq]}" "dev" [exItemDev, exItem819]
      (fun b => if b = exItemDev then "dev" else "8.19")
      (fun _ => "dev") (by decide) (by decide)).2.mpr (by decide)

/-- C7: for a matched rebuild-by-keyword rule, the resolved keyword
set is the rule's `item` template expanded against every build item,
comma-split and flattened, deduplicated, and sorted by
`(length, lexicographic)` order: the result is exactly
`uniqify_tags` of the flattened comma-lists, which is duplicate-free,
`tagLe`-sorted, and contains precisely the comma-list elements of the
per-item expansions. -/
theorem C7_rebuild_keyword_set (itemT : String) (builds : List BuildItem)
    (f : BuildItem → String)
    (hf : ∀ b ∈ builds, eval_propagate itemT b = .ok (f b)) :
    uniq_cat_eval_propagate itemT builds =
      .ok (uniqify_tags (flat_map_trim_comma_split (builds.map f))) ∧
    ∀ r, uniq_cat_eval_propagate itemT builds = .ok r →
      r.Sorted tagLe ∧ r.Nodup ∧
      (∀ s, s ∈ r ↔ ∃ b ∈ builds, s ∈ trim_comma_split (f b)) := by
  have h1 : mapOkList (eval_propagate itemT) builds = .ok (builds.map f) :=
    mapOkList_ok _ _ _ hf
  have heq : uniq_cat_eval_propagate itemT builds =
      .ok (uniqify_tags (flat_map_trim_comma_split (builds.map f))) := by
    simp [uniq_cat_eval_propagate, h1, except_ok_bind]
  refine ⟨heq, ?_⟩
  intro r hr
  rw [heq] at hr
  injection hr with hr
  subst hr
  refine ⟨List.sorted_insertionSort tagLe _, ?_, ?_⟩
  · exact (List.perm_insertionSort tagLe _).nodup_iff.mpr (List.nodup_dedup _)
  · intro s
    simp [uniqify_tags, List.mem_dedup, flat_map_trim_comma_split,
      List.mem_flatten]

/-- C7 witness: the keyword-set theorem applied to a concrete item
template over two build items; the expansions `dev,dev` and `8.19,dev`
flatten to `[dev, dev, 8.19, dev]` and resolve to `[dev, 8.19]`. -/
theorem C7_rebuild_keyword_set_witness :
    uniq_cat_eval_propagate "{matrix[coq]},dev" [exItemDev, exItem819]
      = .ok ["dev", "8.19"] :=
  ((C7_rebuild_keyword_set "{matrix[coq]},dev" [exItemDev, exItem819]
      (fun b => if b = exItemDev then "dev,dev" else "8.19,dev")
      (by decide)).1).trans (by decide)

theorem splitSubAux_ne_nil (sep : List Char) :
    ∀ fuel s, splitSubAux sep fuel s ≠ []
  | 0, s => by simp [splitSubAux]
  | fuel + 1, [] => by simp [splitSubAux]
  | fuel + 1, c :: rest => by
      simp only [splitSubAux]
      by_cases hp : sep.isPrefixOf (c :: rest) = true
      · simp [hp]
      · simp only [hp]
        cases h : splitSubAux sep fuel rest <;> simp [h]

theorem splitSubAux_gt1_iff (sep : List Char) (hsep : sep ≠ []) :
    ∀ fuel s, s.length < fuel →
      (1 < (splitSubAux sep fuel s).length ↔ sep <:+: s)
  | 0, s, h => absurd h (by omega)
  | fuel + 1, [], _ => by
      simp [splitSubAux, hsep]
  | fuel + 1, c :: rest, h => by
      simp only [splitSubAux]
      by_cases hp : sep.isPrefixOf (c :: rest) = true
      · simp only [hp, if_pos]
        constructor
        · intro _
          exact (List.isPrefixOf_iff_prefix.mp hp).isInfix
        · intro _
          have := splitSubAux_ne_nil sep fuel ((c :: rest).drop sep.length)
          simp only [List.length_cons]
          cases hres : splitSubAux sep fuel ((c :: rest).drop sep.length) with
          | nil => exact absurd hres this
          | cons g gs => simp
      · simp only [hp]
        have hrest : rest.length < fuel := by
          simp only [List.length_cons] at h
          omega
        have ih := splitSubAux_gt1_iff sep hsep fuel rest hrest
        have hnp : ¬ sep <+: (c :: rest) := fun hpre =>
          hp (List.isPrefixOf_iff_prefix.mpr hpre)
        rw [List.infix_cons_iff]
        cases hres : splitSubAux sep fuel rest with
        | nil => exact absurd hres (splitSubAux_ne_nil sep fuel rest)
        | cons g gs =>
            rw [hres] at ih
            simp only [List.length_cons] at ih ⊢
            simp only [hnp, false_or]
            exact ih

theorem splitSub_gt1_iff (sep : List Char) (hsep : sep ≠ []) (s : List Char) :
    1 < (splitSub sep s).length ↔ sep <:+: s :=
  splitSubAux_gt1_iff sep hsep (s.length + 1) s (by omega)

/-- C9: `eval_if` on a string condition fails with the keeper Syntax
error ("Unsupported condition") when the string contains neither `==`
nor `!=`; fails with the keeper Syntax error ("Wrong number of
arguments") when splitting on the detected operator (`==` taking
precedence) yields other than two operands; and otherwise returns the
exact string equality (resp. inequality) of the two
template-expanded, stripped and quote-stripped operands. -/

theorem C9_condition_evaluator (raw : String) (matrix gvars : Value) :
    (¬ List.IsInfix ['=', '='] raw.data → ¬ List.IsInfix ['!', '='] raw.data →
      eval_if (.cstr raw) matrix gvars =
        .error (.keeperError ("Unsupported condition: '" ++ raw ++ "'."))) ∧
    (List.IsInfix ['=', '='] raw.data →
      (splitSub ['=', '='] raw.data).length ≠ 2 →
      eval_if (.cstr raw) matrix gvars =
        .error (.keeperError ("Wrong number of arguments: '" ++ raw ++ "'."))) ∧
    (¬ List.IsInfix ['=', '='] raw.data → List.IsInfix ['!', '='] raw.data →
      (splitSub ['!', '='] raw.data).length ≠ 2 →
      eval_if (.cstr raw) matrix gvars =
        .error (.keeperError ("Wrong number of arguments: '" ++ raw ++ "'."))) ∧
    (∀ x y a b, List.IsInfix ['=', '='] raw.data →
      splitSub ['=', '='] raw.data = [x, y] →
      eval_if_operand x matrix gvars = .ok a →
      eval_if_operand y matrix gvars = .ok b →
      eval_if (.cstr raw) matrix gvars = .ok (a == b)) ∧
    (∀ x y a b, ¬ List.IsInfix ['=', '='] raw.data → List.IsInfix ['!', '='] raw.data →
      splitSub ['!', '='] raw.data = [x, y] →
      eval_if_operand x matrix gvars = .ok a →
      eval_if_operand y matrix gvars = .ok b →
      eval_if (.cstr raw) matrix gvars = .ok (a != b)) := by
  have heq := splitSub_gt1_iff ['=', '='] (by simp) raw.data
  have hneq := splitSub_gt1_iff ['!', '='] (by simp) raw.data
  refine ⟨?_, ?_, ?_, ?_, ?_⟩
  · intro h1 h2
    have e1 : ¬ 1 < (splitSub ['=', '='] raw.data).length := fun hc => h1 (heq.mp hc)
    have e2 : ¬ 1 < (splitSub ['!', '='] raw.data).length := fun hc => h2 (hneq.mp hc)
    simp [eval_if, eval_if_str, e1, e2]
  · intro h1 hlen
    have e1 : 1 < (splitSub ['=', '='] raw.data).length := heq.mpr h1
    simp [eval_if, eval_if_str, e1, hlen]
  · intro h1 h2 hlen
    have e1 : ¬ 1 < (splitSub ['=', '='] raw.data).length := fun hc => h1 (heq.mp hc)
    have e2 : 1 < (splitSub ['!', '='] raw.data).length := hneq.mpr h2
    simp [eval_if, eval_if_str, e1, e2, hlen]
  · intro x y a b h1 hsplit ha hb
    have e1 : 1 < (splitSub ['=', '='] raw.data).length := heq.mpr h1
    simp [eval_if, eval_if_str, e1, hsplit, ha, hb, except_ok_bind]
  · intro x y a b h1 h2 hsplit ha hb
    have e1 : ¬ 1 < (splitSub ['=', '='] raw.data).length := fun hc => h1 (heq.mp hc)
    have e2 : 1 < (splitSub ['!', '='] raw.data).length := hneq.mpr h2
    simp [eval_if, eval_if_str, e1, e2, hsplit, ha, hb, except_ok_bind]

/-- C9 witness: the syntax characterization applied to the concrete
condition `{matrix[base]} == latest` under `base = latest`. -/
theorem C9_condition_evaluator_witness :
    eval_if (.cstr "{matrix[base]} == latest")
      (.vdict [("base", .vstr "latest")]) .vnone = .ok true :=
  ((C9_condition_evaluator "{matrix[base]} == latest"
      (.vdict [("base", .vstr "latest")]) .vnone).2.2.2.1
    "{matrix[base]} ".data " latest".data "latest" "latest"
    (by decide) (by decide) (by decide) (by decide)).trans (by decide)

theorem append_singleton_inj {α : Type} {l1 l2 : List α} {x y : α}
    (h : l1 ++ [x] = l2 ++ [y]) : l1 = l2 ∧ x = y := by
  have h' := congrArg List.reverse h
  simp only [List.reverse_append, List.reverse_cons, List.reverse_nil,
    List.nil_append, List.singleton_append] at h'
  obtain ⟨h1, h2⟩ := List.cons.inj h'
  exact ⟨by simpa using congrArg List.reverse h2, h1⟩

theorem expandAxis_mem {k : String} {vs : List String}
    {old : List (List (String × String))} {a : List (String × String)} :
    a ∈ expandAxis k vs old ↔ ∃ v ∈ vs, ∃ e ∈ old, a = e ++ [(k, v)] := by
  simp only [expandAxis, List.mem_flatten, List.mem_map]
  constructor
  · rintro ⟨l, ⟨v, hv, rfl⟩, hl⟩
    obtain ⟨e, he, rfl⟩ := List.mem_map.mp hl
    exact ⟨v, hv, e, he, rfl⟩
  · rintro ⟨v, hv, e, he, rfl⟩
    exact ⟨old.map (fun e => e ++ [(k, v)]), ⟨v, hv, rfl⟩, List.mem_map_of_mem _ he⟩

theorem expandAxis_length (k : String) (vs : List String)
    (old : List (List (String × String))) :
    (expandAxis k vs old).length = vs.length * old.length := by
  induction vs with
  | nil => simp [expandAxis]
  | cons v vs ih =>
      simp only [expandAxis, List.map_cons, List.flatten_cons,
        List.length_append, List.length_map, List.length_cons] at *
      rw [ih]
      ring

theorem expandAxis_nodup {k : String} {vs : List String}
    {old : List (List (String × String))}
    (hvs : vs.Nodup) (hold : old.Nodup) : (expandAxis k vs old).Nodup := by
  induction vs with
  | nil => simp [expandAxis]
  | cons v vs ih =>
      have hv : v ∉ vs := (List.nodup_cons.mp hvs).1
      have hvs' : vs.Nodup := (List.nodup_cons.mp hvs).2
      have : expandAxis k (v :: vs) old
          = old.map (fun e => e ++ [(k, v)]) ++ expandAxis k vs old := by
        simp [expandAxis]
      rw [this]
      apply List.Nodup.append
      · exact hold.map (fun e1 e2 h => (append_singleton_inj h).1)
      · exact ih hvs'
      · intro x hx1 hx2
        obtain ⟨e1, he1, rfl⟩ := List.mem_map.mp hx1
        obtain ⟨v', hv', e2, he2, heq⟩ := expandAxis_mem.mp hx2
        obtain ⟨-, hkv⟩ := append_singleton_inj heq
        have hvv : v = v' := ((Prod.mk.injEq _ _ _ _).mp hkv).2
        subst hvv
        exact hv hv'

theorem foldl_expand_length : ∀ (matrix : List (String × List String))
    (old : List (List (String × String))),
    (matrix.foldl (fun o kv => expandAxis kv.1 kv.2 o) old).length
      = old.length * (matrix.map (fun ax => ax.2.length)).prod
  | [], old => by simp
  | ax :: ms, old => by
      simp only [List.foldl_cons, List.map_cons, List.prod_cons]
      rw [foldl_expand_length ms (expandAxis ax.1 ax.2 old), expandAxis_length]
      ring

theorem foldl_expand_mem : ∀ (matrix : List (String × List String))
    (old : List (List (String × String))) (a : List (String × String)),
    a ∈ matrix.foldl (fun o kv => expandAxis kv.1 kv.2 o) old →
    ∃ e ∈ old, ∃ s, a = e ++ s ∧
      List.Forall₂ (fun (ax : String × List String) (kv : String × String) =>
        kv.1 = ax.1 ∧ kv.2 ∈ ax.2) matrix s
  | [], old, a => by
      intro ha
      exact ⟨a, ha, [], by simp⟩
  | ax :: ms, old, a => by
      intro ha
      simp only [List.foldl_cons] at ha
      obtain ⟨e', he', s', rfl, hs'⟩ := foldl_expand_mem ms _ a ha
      obtain ⟨v, hv, e, he, rfl⟩ := expandAxis_mem.mp he'
      refine ⟨e, he, (ax.1, v) :: s', by simp, ?_⟩
      exact List.Forall₂.cons ⟨rfl, hv⟩ hs'

theorem foldl_expand_nodup : ∀ (matrix : List (String × List String))
    (old : List (List (String × String))),
    (∀ ax ∈ matrix, ax.2.Nodup) → old.Nodup →
    (matrix.foldl (fun o kv => expandAxis kv.1 kv.2 o) old).Nodup
  | [], old, _, hold => by simpa using hold
  | ax :: ms, old, hax, hold => by
      simp only [List.foldl_cons]
      exact foldl_expand_nodup ms _ (fun a ha => hax a (by simp [ha]))
        (expandAxis_nodup (hax ax (by simp)) hold)

/-- C4 counterexample: an Axis Mapping whose axis repeats a candidate
value is non-empty, yet the expansion contains two identical
assignments, contradicting the claim's distinctness part. -/
theorem C4_counterexample :
    product_build_matrix [("a", ["x", "x"])]
      = .ok [[("a", "x")], [("a", "x")]] ∧
    ¬ ([[("a", "x")], [("a", "x")]] : List (List (String × String))).Nodup :=
  ⟨rfl, by simp⟩

/-- C4 (amended): for every non-empty Axis Mapping,
`product_build_matrix` succeeds with exactly `∏ nᵢ` assignments, each
assignment binding the axis names in declaration order, each to one of
that axis's declared candidate values; and when every axis's candidate
list is duplicate-free, no two assignments in the result are
identical. -/
theorem C4_matrix_expansion (matrix : List (String × List String))
    (hne : matrix ≠ []) :
    ∃ res, product_build_matrix matrix = .ok res ∧
      res.length = (matrix.map (fun ax => ax.2.length)).prod ∧
      (∀ a ∈ res, List.Forall₂
        (fun (ax : String × List String) (kv : String × String) =>
          kv.1 = ax.1 ∧ kv.2 ∈ ax.2) matrix a) ∧
      ((∀ ax ∈ matrix, ax.2.Nodup) → res.Nodup) := by
  refine ⟨product_core matrix, ?_, ?_, ?_, ?_⟩
  · simp [product_build_matrix, hne]
  · have := foldl_expand_length matrix [[]]
    simpa [product_core] using this
  · intro a ha
    obtain ⟨e, he, s, rfl, hs⟩ := foldl_expand_mem matrix [[]] a ha
    have : e = [] := by simpa using he
    subst this
    simpa using hs
  · intro hax
    exact foldl_expand_nodup matrix [[]] hax (by simp)

/-- C4 witness: the amended expansion theorem applied to a concrete
two-axis mapping with 2 × 1 = 2 duplicate-free assignments. -/
theorem C4_matrix_expansion_witness :
    product_build_matrix [("base", ["latest", "4.09.0-flambda"]), ("coq", ["dev"])]
      = .ok [[("base", "latest"), ("coq", "dev")],
             [("base", "4.09.0-flambda"), ("coq", "dev")]] := by
  obtain ⟨res, h1, -, -, -⟩ :=
    C4_matrix_expansion [("base", ["latest", "4.09.0-flambda"]), ("coq", ["dev"])]
      (by decide)
  exact h1.trans (by rw [← h1]; decide)

/-- C6 counterexample: compilation is *not* a pure function of the
specification alone — `get_build_date()` reads the ambient clock, so
two runs on the identical specification at different times produce
different outputs (here the keyword template reads
`{defaults[build_date]}`). -/
theorem C6_counterexample :
    get_list_dict_dockerfile_matrix_tags_args exSpecClock
        (fun _ => "2024-01-01T00:00:00Z") (fun _ => "")
      = .ok [⟨"ctx", "Dockerfile", "ctx/Dockerfile", [("a", "x")], [], [],
             ["2024-01-01T00:00:00Z"], []⟩] ∧
    get_list_dict_dockerfile_matrix_tags_args exSpecClock
        (fun _ => "2024-01-02T00:00:00Z") (fun _ => "")
      = .ok [⟨"ctx", "Dockerfile", "ctx/Dockerfile", [("a", "x")], [], [],
             ["2024-01-02T00:00:00Z"], []⟩] ∧
    get_list_dict_dockerfile_matrix_tags_args exSpecClock
        (fun _ => "2024-01-01T00:00:00Z") (fun _ => "")
      ≠ get_list_dict_dockerfile_matrix_tags_args exSpecClock
        (fun _ => "2024-01-02T00:00:00Z") (fun _ => "") :=
  ⟨rfl, rfl, by decide⟩

/-- C6 (amended): compilation is deterministic once the ambient
inputs are explicit — identical specification *and* identical
build-date and commit environments give identical compiled plans —
and `get_propagate_strategy` is a pure function of its four explicit
inputs. -/
theorem C6_determinism (spec : KSpec) (d1 d2 : Nat → String)
    (c1 c2 : CommitApi → String) (hd : d1 = d2) (hc : c1 = c2)
    (prop : List (String × PropTarget)) (builds : List BuildItem)
    (trig : Triggered) (manual : List (String × ResStrat)) :
    get_list_dict_dockerfile_matrix_tags_args spec d1 c1 =
      get_list_dict_dockerfile_matrix_tags_args spec d2 c2 ∧
    get_propagate_strategy prop builds trig manual =
      get_propagate_strategy prop builds trig manual := by
  subst hd; subst hc; exact ⟨rfl, rfl⟩

/-- C6 witness: the determinism theorem applied at a concrete
specification, environment and propagation input. -/
theorem C6_determinism_witness :
    get_list_dict_dockerfile_matrix_tags_args exSpecClock
        (fun _ => "2024-01-01T00:00:00Z") (fun _ => "") =
      get_list_dict_dockerfile_matrix_tags_args exSpecClock
        (fun _ => "2024-01-01T00:00:00Z") (fun _ => "") ∧
    get_propagate_strategy [("A", exTarget [exDefaultRule])] [exItemDev]
        ⟨false, false⟩ [] =
      get_propagate_strategy [("A", exTarget [exDefaultRule])] [exItemDev]
        ⟨false, false⟩ [] :=
  C6_determinism exSpecClock _ _ _ _ rfl rfl
    [("A", exTarget [exDefaultRule])] [exItemDev] ⟨false, false⟩ []

theorem except_error_bind {ε α β : Type} (e : ε) (f : α → Except ε β) :
    (Except.error e : Except ε α) >>= f = .error e := rfl

theorem except_map_eq_ok {α β : Type} {em : Except Err α} {f : α → β} {r : β} :
    em.map f = .ok r ↔ ∃ a, em = .ok a ∧ f a = r := by
  cases em <;> simp [Except.map]

theorem lookup_filter_ne {α : Type} (manual : List (String × α)) (s0 slug : String)
    (h : slug ≠ s0) :
    lookupStr (manual.filter (fun kv => kv.1 ≠ s0)) slug = lookupStr manual slug := by
  induction manual with
  | nil => rfl
  | cons kv rest ih =>
      by_cases hk : kv.1 = s0
      · have hns : ¬ (kv.1 = slug) := fun hh => h (hh ▸ hk)
        rw [List.filter_cons_of_neg (by simp [hk])]
        simp only [lookupStr]
        rw [if_neg hns]
        exact ih
      · rw [List.filter_cons_of_pos (by simp [hk])]
        simp only [lookupStr]
        rw [ih]

theorem propagateLoop_acc (builds : List BuildItem) (trig : Triggered) (alom : Bool) :
    ∀ (props : List (String × PropTarget)) (manual : List (String × ResStrat))
      (acc : List (String × ResEntry)),
      propagateLoop builds trig alom props manual acc
        = (propagateLoop builds trig alom props manual []).map (fun r => acc ++ r)
  | [], manual, acc => by
      simp only [propagateLoop]
      split
      · rfl
      · simp [Except.map]
  | (slug, prop1) :: rest, manual, acc => by
      simp only [propagateLoop]
      cases hc : checkTarget slug prop1 with
      | error e => simp [except_error_bind, Except.map]
      | ok u =>
          simp only [except_ok_bind]
          cases hl : lookupStr manual slug with
          | some ms =>
              simp only []
              rw [propagateLoop_acc builds trig alom rest _ (acc ++ _),
                  propagateLoop_acc builds trig alom rest _ ([] ++ _)]
              cases propagateLoop builds trig alom rest
                (manual.filter (fun kv => kv.1 ≠ slug)) [] <;>
                simp [Except.map, List.append_assoc]
          | none =>
              simp only []
              cases alom with
              | true =>
                  simp only [if_pos rfl]
                  exact propagateLoop_acc builds trig true rest manual acc
              | false =>
                  simp only [Bool.false_eq_true, if_false]
                  cases hr : resolve_strategy builds trig prop1.strategy with
                  | error e => simp [except_error_bind, Except.map]
                  | ok ro =>
                      simp only [except_ok_bind]
                      match ro with
                      | none => exact propagateLoop_acc builds trig false rest manual acc
                      | some rs =>
                          simp only []
                          by_cases hm : rs.mode = "nil"
                          · rw [if_neg (by simp [hm]), if_neg (by simp [hm])]
                            exact propagateLoop_acc builds trig false rest manual acc
                          · rw [if_pos hm, if_pos hm]
                            rw [propagateLoop_acc builds trig false rest manual (acc ++ _),
                                propagateLoop_acc builds trig false rest manual ([] ++ _)]
                            cases propagateLoop builds trig false rest manual [] <;>
                              simp [Except.map, List.append_assoc]

theorem propagateLoop_lookup_none (builds : List BuildItem) (trig : Triggered)
    (alom : Bool) :
    ∀ (props : List (String × PropTarget)) (manual : List (String × ResStrat))
      (res : List (String × ResEntry)) (slug : String),
      propagateLoop builds trig alom props manual [] = .ok res →
      slug ∉ props.map Prod.fst →
      lookupStr res slug = none
  | [], manual, res, slug => by
      intro hres hslug
      simp only [propagateLoop] at hres
      split at hres
      · cases hres
      · injection hres with h
        subst h
        rfl
  | (s0, t0) :: rest, manual, res, slug => by
      intro hres hslug
      have hs0 : slug ≠ s0 := by
        simp only [List.map_cons, List.mem_cons] at hslug
        exact fun h => hslug (Or.inl h)
      have hrest : slug ∉ rest.map Prod.fst := by
        simp only [List.map_cons, List.mem_cons] at hslug
        exact fun h => hslug (Or.inr h)
      simp only [propagateLoop] at hres
      cases hc : checkTarget s0 t0 with
      | error e =>
          rw [hc] at hres
          simp [except_error_bind] at hres
      | ok u =>
          rw [hc] at hres
          simp only [except_ok_bind] at hres
          cases hl : lookupStr manual s0 with
          | some ms =>
              rw [hl] at hres
              simp only [] at hres
              rw [propagateLoop_acc] at hres
              obtain ⟨res', hres', hcat⟩ := except_map_eq_ok.mp hres
              subst hcat
              simp only [List.nil_append, List.singleton_append, lookupStr]
              rw [if_neg (fun hh => hs0 hh.symm)]
              exact propagateLoop_lookup_none builds trig alom rest _ res' slug hres' hrest
          | none =>
              rw [hl] at hres
              simp only [] at hres
              cases alom with
              | true =>
                  rw [if_pos rfl] at hres
                  exact propagateLoop_lookup_none builds trig true rest manual res slug hres hrest
              | false =>
                  rw [if_neg (by simp)] at hres
                  cases hr : resolve_strategy builds trig t0.strategy with
                  | error e =>
                      rw [hr] at hres
                      simp [except_error_bind] at hres
                  | ok ro =>
                      rw [hr] at hres
                      simp only [except_ok_bind] at hres
                      cases ro with
                      | none =>
                          simp only [] at hres
                          exact propagateLoop_lookup_none builds trig false rest manual res slug hres hrest
                      | some rs =>
                          simp only [] at hres
                          by_cases hm : rs.mode = "nil"
                          · rw [if_neg (by simp [hm])] at hres
                            exact propagateLoop_lookup_none builds trig false rest manual res slug hres hrest
                          · rw [if_pos hm] at hres
                            rw [propagateLoop_acc] at hres
                            obtain ⟨res', hres', hcat⟩ := except_map_eq_ok.mp hres
                            subst hcat
                            simp only [List.nil_append, List.singleton_append, lookupStr]
                            rw [if_neg (fun hh => hs0 hh.symm)]
                            exact propagateLoop_lookup_none builds trig false rest manual res' slug hres' hrest

theorem propagateLoop_manual_spec (builds : List BuildItem) (trig : Triggered) :
    ∀ (props : List (String × PropTarget)) (manual : List (String × ResStrat))
      (res : List (String × ResEntry)),
      propagateLoop builds trig true props manual [] = .ok res →
      ∀ slug target, (slug, target) ∈ props → (props.map Prod.fst).Nodup →
        (∀ ms, lookupStr manual slug = some ms →
          lookupStr res slug = some ⟨target.api_token_env_var, target.gitlab_domain,
            target.gitlab_project, ms⟩) ∧
        (lookupStr manual slug = none → lookupStr res slug = none)
  | [], _, _ => by
      intro _ slug target hmem
      exact absurd hmem (by simp)
  | (s0, t0) :: rest, manual, res => by
      intro hres slug target hmem hnodup
      have hnodup' : (rest.map Prod.fst).Nodup :=
        (List.nodup_cons.mp (by simpa using hnodup)).2
      have hs0notin : s0 ∉ rest.map Prod.fst :=
        (List.nodup_cons.mp (by simpa using hnodup)).1
      simp only [propagateLoop] at hres
      cases hc : checkTarget s0 t0 with
      | error e =>
          rw [hc] at hres
          simp [except_error_bind] at hres
      | ok u =>
          rw [hc] at hres
          simp only [except_ok_bind] at hres
          cases hl : lookupStr manual s0 with
          | some ms0 =>
              rw [hl] at hres
              simp only [] at hres
              rw [propagateLoop_acc] at hres
              obtain ⟨res', hres', hcat⟩ := except_map_eq_ok.mp hres
              subst hcat
              rcases List.mem_cons.mp hmem with heq | hmem'
              · injection heq with h1 h2
                subst h1
                subst h2
                constructor
                · intro ms hms
                  rw [hms] at hl
                  obtain rfl := Option.some.inj hl
                  simp [lookupStr]
                · intro hnone
                  rw [hnone] at hl
                  cases hl
              · have hs0 : slug ≠ s0 := by
                  intro h
                  subst h
                  exact hs0notin (List.mem_map_of_mem Prod.fst hmem')
                have ih := propagateLoop_manual_spec builds trig rest
                  (manual.filter (fun kv => kv.1 ≠ s0)) res' hres' slug target hmem' hnodup'
                constructor
                · intro ms hms
                  have := ih.1 ms (by
                    rw [lookup_filter_ne manual s0 slug hs0]
                    exact hms)
                  simp only [List.nil_append, List.singleton_append, lookupStr]
                  rw [if_neg (fun hh => hs0 hh.symm)]
                  exact this
                · intro hnone
                  have := ih.2 (by
                    rw [lookup_filter_ne manual s0 slug hs0]
                    exact hnone)
                  simp only [List.nil_append, List.singleton_append, lookupStr]
                  rw [if_neg (fun hh => hs0 hh.symm)]
                  exact this
          | none =>
              rw [hl] at hres
              simp only [] at hres
              rw [if_pos trivial] at hres
              rcases List.mem_cons.mp hmem with heq | hmem'
              · injection heq with h1 h2
                subst h1
                subst h2
                constructor
                · intro ms hms
                  rw [hms] at hl
                  cases hl
                · intro _
                  exact propagateLoop_lookup_none builds trig true rest manual res slug
                    hres hs0notin
              · exact propagateLoop_manual_spec builds trig rest manual res hres
                  slug target hmem' hnodup'

/-- C1: when the Manual Override table is non-empty, every target of
the rule table that has an override resolves to exactly that
override's mode and keyword set (its rule list is never consulted:
the resolved entry is the override verbatim), and every target
without an override is absent from the resolved propagation table. -/
theorem C1_manual_override (prop : List (String × PropTarget))
    (builds : List BuildItem) (trig : Triggered)
    (manual : List (String × ResStrat)) (res : List (String × ResEntry))
    (hm : manual ≠ [])
    (hres : get_propagate_strategy prop builds trig manual = .ok res)
    (hnodup : (prop.map Prod.fst).Nodup)
    (slug : String) (target : PropTarget) (hmem : (slug, target) ∈ prop) :
    (∀ ms, lookupStr manual slug = some ms →
      lookupStr res slug = some ⟨target.api_token_env_var, target.gitlab_domain,
        target.gitlab_project, ms⟩) ∧
    (lookupStr manual slug = none → lookupStr res slug = none) := by
  have halom : (!manual.isEmpty) = true := by
    cases manual with
    | nil => exact absurd rfl hm
    | cons a l => rfl
  unfold get_propagate_strategy at hres
  rw [halom] at hres
  exact propagateLoop_manual_spec builds trig prop manual res hres slug target
    hmem hnodup

/-- C1 witness: two targets `A` and `B`, one override for `A` only:
`A` resolves to the override's mode, `B` is absent from the resolved
table (despite its automatic default rule). -/
theorem C1_manual_override_witness :
    lookupStr [("A", (⟨"TOKEN_VAR", "gitlab.com", "42",
        ⟨"rebuild-all", none⟩⟩ : ResEntry))] "A"
      = some ⟨"TOKEN_VAR", "gitlab.com", "42", ⟨"rebuild-all", none⟩⟩ ∧
    lookupStr [("A", (⟨"TOKEN_VAR", "gitlab.com", "42",
        ⟨"rebuild-all", none⟩⟩ : ResEntry))] "B" = none :=
  ⟨(C1_manual_override
      [("A", exTarget [exDefaultRule]), ("B", exTarget [exDefaultRule])]
      [exItemDev] ⟨false, false⟩ [("A", ⟨"rebuild-all", none⟩)]
      [("A", ⟨"TOKEN_VAR", "gitlab.com", "42", ⟨"rebuild-all", none⟩⟩)]
      (by decide) (by decide) (by decide)
      "A" (exTarget [exDefaultRule]) (List.mem_cons_self _ _)).1
      ⟨"rebuild-all", none⟩ (by decide),
   (C1_manual_override
      [("A", exTarget [exDefaultRule]), ("B", exTarget [exDefaultRule])]
      [exItemDev] ⟨false, false⟩ [("A", ⟨"rebuild-all", none⟩)]
      [("A", ⟨"TOKEN_VAR", "gitlab.com", "42", ⟨"rebuild-all", none⟩⟩)]
      (by decide) (by decide) (by decide)
      "B" (exTarget [exDefaultRule])
      (List.mem_cons_of_mem _ (List.mem_cons_self _ _))).2 (by decide)⟩
